import Mathlib

/-!
Verification of the Record Ingestor of `scripts/miqa_sync_datasets.py`:
the value-coercion function `coerce_value` and the CSV ingestion function
`read_csv_items`.  The embedding works over Lean `String`s at the
character-list level.  Python string primitives (`strip`, `lower`,
`isdigit`, the grammar accepted by `float(...)`) are modelled explicitly
as `py*` functions below; digits and case mapping are modelled over the
ASCII range, which covers the whole documented domain of the tool.
-/

/-- Coerced values produced by `coerce_value`: one of null, boolean,
integer, floating-point number, or string.  The `float` constructor
carries the (already stripped) literal text `lit`; it denotes the IEEE
double `float(lit)`.  The claims about the float branch concern which
branch is taken and which literal is parsed, never IEEE arithmetic, so
the literal is the faithful payload. -/
inductive Value where
  | null : Value
  | bool (b : Bool) : Value
  | int (n : Int) : Value
  | float (lit : String) : Value
  | str (s : String) : Value
deriving DecidableEq, Repr

deriving instance DecidableEq for Except

/-- Python `str.strip()` (over ASCII whitespace): drop leading and
trailing whitespace characters. -/
def pyStrip (s : String) : String :=
  ⟨((s.data.dropWhile Char.isWhitespace).reverse.dropWhile Char.isWhitespace).reverse⟩

/-- Python `str.lower()` restricted to ASCII: lower-case every character. -/
def pyLower (s : String) : String :=
  ⟨s.data.map Char.toLower⟩

/-- Python `str.isdigit()` (ASCII model): non-empty and all characters
are decimal digits. -/
def pyIsDigitStr (s : String) : Bool :=
  !s.data.isEmpty && s.data.all Char.isDigit

/-- The integer test of `coerce_value`, line 27 of the source:
`s.isdigit() or (s.startswith("-") and s[1:].isdigit())`. -/
def intShape (s : String) : Bool :=
  pyIsDigitStr s ||
    (s.data.head? = some '-' && (!s.data.tail.isEmpty && s.data.tail.all Char.isDigit))

/-- Value of a (non-empty, all-digit) run of decimal digit characters. -/
def digitsVal (l : List Char) : Nat :=
  l.foldl (fun a c => a * 10 + (c.toNat - 48)) 0

/-- Python `int(s)` on strings accepted by the `intShape` test. -/
def pyParseInt (s : String) : Int :=
  if s.data.head? = some '-' then -(digitsVal s.data.tail : Int)
  else (digitsVal s.data : Int)

/-- The float-branch trigger of `coerce_value`, line 34 of the source:
`any(ch in s for ch in (".", "e", "E"))`. -/
def floatTrigger (s : String) : Bool :=
  s.data.any (fun c => c = '.' || c = 'e' || c = 'E')

/-- Consume a maximal run of further digits, where a single underscore
may stand between two digits (PEP 515), returning the unconsumed rest. -/
def digitsTail : List Char → List Char
  | [] => []
  | c :: cs =>
    if c.isDigit then digitsTail cs
    else if c = '_' then
      match cs with
      | d :: ds => if d.isDigit then digitsTail ds else c :: cs
      | [] => [c]
    else c :: cs

/-- Consume a digit run (at least one digit, underscores between digits);
`none` when the input does not start with a digit. -/
def munchDigits : List Char → Option (List Char)
  | [] => none
  | c :: cs => if c.isDigit then some (digitsTail cs) else none

/-- Drop one optional leading sign character. -/
def skipSign : List Char → List Char
  | [] => []
  | c :: cs => if c = '-' || c = '+' then cs else c :: cs

/-- Consume the mantissa of a float literal:
`digits [ "." [digits] ]` or `"." digits`. -/
def munchMantissa (l : List Char) : Option (List Char) :=
  match munchDigits l with
  | some rest =>
    match rest with
    | '.' :: rs => some ((munchDigits rs).getD rs)
    | _ => some rest
  | none =>
    match l with
    | '.' :: rs => munchDigits rs
    | _ => none

/-- Does the whole remainder form a valid exponent-or-nothing suffix? -/
def expOk : List Char → Bool
  | [] => true
  | c :: cs =>
    (c = 'e' || c = 'E') &&
      (match munchDigits (skipSign cs) with
       | some [] => true
       | _ => false)

/-- Acceptance test of CPython `float(s)` on an already stripped string:
optional sign, then `inf`/`infinity`/`nan` (case-insensitive) or a
decimal mantissa with an optional exponent. -/
def pyFloatOk (s : String) : Bool :=
  let l := skipSign s.data
  let low := pyLower ⟨l⟩
  if low = "inf" || low = "infinity" || low = "nan" then true
  else
    match munchMantissa l with
    | some rest => expOk rest
    | none => false

/-- Translation of `coerce_value` (source lines 16-39).  The argument is
`Option String` because the caller passes `row.get(k)`, which is `None`
for a missing cell; `(raw or "")` is `raw.getD ""`.  The `int(s)` call
never raises on strings passing the digit test, so its `try` is inert;
the `float(s)` call raises exactly when `pyFloatOk` is false, and the
surrounding `except: pass` then falls through to returning `s`. -/
def coerce_value (raw : Option String) : Value :=
  let s := pyStrip (raw.getD "")
  if s = "" then Value.null
  else
    let low := pyLower s
    if low = "true" then Value.bool true
    else if low = "false" then Value.bool false
    else if intShape s then Value.int (pyParseInt s)
    else if floatTrigger s then
      if pyFloatOk s then Value.float s else Value.str s
    else Value.str s

/-- A parsed data row: the cell of each column in header order; `none`
marks a cell absent from a short row (the `restval=None` of
`csv.DictReader`).  A row longer than the header is in the domain: the
source files the extra cells under the rest-key `None`, and the item
loop then passes that list to `coerce_value`, whose `.strip()` call
raises an uncaught `AttributeError`; `ingestLoop` models this crash
explicitly with an arity check at the point of the item loop. -/
abbrev Row := List (Option String)

/-- The dictionary `csv.DictReader` yields for one row: field name to
cell, in first-occurrence field order. -/
abbrev RowDict := List (String × Option String)

/-- A produced Record: ordered mapping from field name to coerced value. -/
abbrev Item := List (String × Value)

/-- Python dict assignment `d[k] = v` on an association list: replace the
value at the first occurrence of `k`, else append. -/
def upsertAssoc (d : RowDict) (k : String) (v : Option String) : RowDict :=
  match d with
  | [] => [(k, v)]
  | (k0, v0) :: rest =>
    if k0 = k then (k0, v) :: rest else (k0, v0) :: upsertAssoc rest k v

/-- The string-keyed part of the dictionary `csv.DictReader` yields for
one row: zip the field names with the row's cells, padding a short row
with `none` (`restval`); duplicate field names collapse as in a Python
dict.  For a long row the extra cells live under the rest-key `None`,
which no string lookup reaches; their only observable effect, the
`AttributeError` crash in the item loop, is modelled by the explicit
arity check in `ingestLoop`. -/
def rowDict (fields : List String) (r : Row) : RowDict :=
  (fields.zip (r ++ List.replicate fields.length none)).foldl
    (fun d kv => upsertAssoc d kv.1 kv.2) []

/-- Python `row.get(k)`: the cell at `k`, flattening a stored `None` and
an absent key into `none`. -/
def rowGet (d : RowDict) (k : String) : Option String :=
  match d.lookup k with
  | some v => v
  | none => none

/-- Python dict assignment `item[k] = cv` on a Record under construction. -/
def upsertItem (item : Item) (k : String) (v : Value) : Item :=
  match item with
  | [] => [(k, v)]
  | (k0, v0) :: rest =>
    if k0 = k then (k0, v) :: rest else (k0, v0) :: upsertItem rest k v

/-- The per-row field loop of `read_csv_items` (source lines 67-73): for
every column other than `name`, coerce the cell and store it unless the
coerced value is null. -/
def addFields (item : Item) : RowDict → Item
  | [] => item
  | (k, v) :: rest =>
    if k = "name" then addFields item rest
    else
      match coerce_value v with
      | Value.null => addFields item rest
      | cv => addFields (upsertItem item k cv) rest

/-- Building one Record (source lines 66-73): start from
`{"name": name}` and add the coerced non-null fields. -/
def buildItem (name : String) (d : RowDict) : Item :=
  addFields [("name", Value.str name)] d

/-- Trimmed name of a row, as the loop computes it. -/
def rowName (fields : List String) (r : Row) : String :=
  pyStrip ((rowGet (rowDict fields r) "name").getD "")

/-- The Record a non-blank row yields. -/
def mkItem (fields : List String) (r : Row) : Item :=
  buildItem (rowName fields r) (rowDict fields r)

/-- Failure taxonomy of the ingestor.  The first three constructors
correspond to the `err(...)` call sites of `read_csv_items` and carry
their messages; `attributeError` models the uncaught Python
`AttributeError` with which the process crashes when the item loop
reaches the rest-key `None` of a row longer than the header. -/
inductive IngestErr where
  | notFound (msg : String) : IngestErr
  | formatError (msg : String) : IngestErr
  | duplicateKey (msg : String) : IngestErr
  | attributeError (msg : String) : IngestErr
deriving DecidableEq, Repr

/-- Message of the blank-name Warning (source line 60). -/
def skippedMsg (idx : Nat) : String :=
  s!"Line {idx}: missing name; skipped"

/-- Message of the duplicate-name error (source line 63). -/
def dupErrMsg (name : String) (idx : Nat) : String :=
  "Duplicate name \x27" ++ name ++ "\x27 found (line " ++ toString idx ++ ")"

/-- Message of the uncaught exception raised when `coerce_value` receives
the rest-key list of a long row (`(raw or "").strip()` on a list). -/
def attrErrMsg : String :=
  "AttributeError: \x27list\x27 object has no attribute \x27strip\x27"

/-- The row loop of `read_csv_items` (source lines 57-75), with the
mutable `items`, `warnings` and `seen_names` as explicit accumulators;
`idx` is the `enumerate(reader, start=2)` counter.  The order of the
three tests follows the source: the blank-name skip and the duplicate
check both precede the item loop, so they fire even for a long row;
only when the item loop is reached does a long row crash on its
rest-key `None` entry (which `dict` iteration yields last), before any
Record is appended. -/
def ingestLoop (fields : List String) :
    List Row → Nat → List Item → List String → List String →
    Except IngestErr (List Item × List String)
  | [], _, items, warns, _ => Except.ok (items, warns)
  | r :: rs, idx, items, warns, seen =>
    let name := rowName fields r
    if name = "" then
      ingestLoop fields rs (idx + 1) items (warns ++ [skippedMsg idx]) seen
    else if name ∈ seen then
      Except.error (IngestErr.duplicateKey (dupErrMsg name idx))
    else if fields.length < r.length then
      Except.error (IngestErr.attributeError attrErrMsg)
    else
      ingestLoop fields rs (idx + 1) (items ++ [mkItem fields r]) warns
        (name :: seen)

/-- A source file as seen after CSV parsing: `fieldnames` is `none` for
an empty file (no header at all) and `some []` for an empty header row;
`rows` are the data rows. -/
structure CSVSource where
  fieldnames : Option (List String)
  rows : List Row
deriving DecidableEq, Repr

/-- Translation of `read_csv_items` (source lines 42-77).  `src = none`
models a path that does not exist (`os.path.exists` false); otherwise
`src` is the parsed file content. -/
def read_csv_items (path : String) (src : Option CSVSource) :
    Except IngestErr (List Item × List String) :=
  match src with
  | none => Except.error (IngestErr.notFound s!"source_path not found: {path}")
  | some file =>
    match file.fieldnames with
    | none => Except.error (IngestErr.formatError "CSV missing header row")
    | some fields =>
      if fields = [] then
        Except.error (IngestErr.formatError "CSV missing header row")
      else if "name" ∉ fields then
        Except.error
          (IngestErr.formatError "CSV must include a \x27name\x27 column")
      else ingestLoop fields file.rows 2 [] [] []

/-- Order-preserving record list of a row sequence: one Record per row
with a non-blank trimmed name, none for blank-name rows. -/
def itemsOf (fields : List String) : List Row → List Item
  | [] => []
  | r :: rs =>
    if rowName fields r = "" then itemsOf fields rs
    else mkItem fields r :: itemsOf fields rs

/-- Warnings of a row sequence whose first row carries line number `idx`. -/
def warningsFrom (fields : List String) (idx : Nat) : List Row → List String
  | [] => []
  | r :: rs =>
    if rowName fields r = "" then
      skippedMsg idx :: warningsFrom fields (idx + 1) rs
    else warningsFrom fields (idx + 1) rs

/-- Line numbers of the blank-name rows, first row at line `idx`. -/
def blankLines (fields : List String) (idx : Nat) : List Row → List Nat
  | [] => []
  | r :: rs =>
    if rowName fields r = "" then idx :: blankLines fields (idx + 1) rs
    else blankLines fields (idx + 1) rs

/-- The non-blank trimmed names of a row sequence, in order. -/
def nonblankNames (fields : List String) : List Row → List String
  | [] => []
  | r :: rs =>
    if rowName fields r = "" then nonblankNames fields rs
    else rowName fields r :: nonblankNames fields rs

/-- First duplicated name: scanning from line `idx` with the given set of
already seen names, the name and line of the first row whose non-blank
trimmed name was seen before (the second row of the earliest colliding
pair when `seen` starts empty). -/
def firstDup (fields : List String) (idx : Nat) (seen : List String) :
    List Row → Option (String × Nat)
  | [] => none
  | r :: rs =>
    let n := rowName fields r
    if n = "" then firstDup fields (idx + 1) seen rs
    else if n ∈ seen then some (n, idx)
    else firstDup fields (idx + 1) (n :: seen) rs

/-- Name stored in a Record. -/
def itemName (it : Item) : String :=
  match it.lookup "name" with
  | some (Value.str n) => n
  | _ => ""

/-- Spec-worded integer shape (section 4.2 rule 3): an optional single
leading `-` followed by one or more digits and nothing else. -/
def specIntLit (s : String) : Bool :=
  let body := if s.data.head? = some '-' then s.data.tail else s.data
  !body.isEmpty && body.all Char.isDigit

/-- Executable well-formedness of a Record: it stores a non-empty string
under `"name"`, and no key maps to null. -/
def wfItemB (it : Item) : Bool :=
  (match it.lookup "name" with
   | some (Value.str n) => !(n == "")
   | _ => false)
  && it.all (fun kv => !(kv.2 == Value.null))

/-- Normalise one cell: an absent cell becomes an explicitly empty one. -/
def normCell (c : Option String) : Option String := some (c.getD "")

/-- Normalise one row-dictionary entry. -/
def normKV (kv : String × Option String) : String × Option String :=
  (kv.1, normCell kv.2)

/-- Replace every absent cell of a row by an explicitly empty cell: the
existing cells are kept (an interior `none` becomes `some ""`) and a
short row is padded with empty cells up to the header arity.  Present
cells, including the extra cells of a long row, are untouched. -/
def fillRow (fields : List String) (r : Row) : Row :=
  r.map normCell ++ List.replicate (fields.length - r.length) (some "")

example : coerce_value (some "") = Value.null := by decide
example : coerce_value (some "  ") = Value.null := by decide
example : coerce_value (some "true") = Value.bool true := by decide
example : coerce_value (some "FALSE") = Value.bool false := by decide
example : coerce_value (some "42") = Value.int 42 := by decide
example : coerce_value (some "-7") = Value.int (-7) := by decide
example : coerce_value (some "-") = Value.str "-" := by decide
example : coerce_value (some "--5") = Value.str "--5" := by decide
example : coerce_value (some "3.14") = Value.float "3.14" := by decide
example : coerce_value (some "1.2.3") = Value.str "1.2.3" := by decide
example : coerce_value (some "abc") = Value.str "abc" := by decide
example : coerce_value (some "1e5") = Value.float "1e5" := by decide
example : coerce_value (some "1_0.5") = Value.float "1_0.5" := by decide
example : coerce_value (some "1_.5") = Value.str "1_.5" := by decide
example : coerce_value (some "1.e5") = Value.float "1.e5" := by decide
example : coerce_value (some ".e5") = Value.str ".e5" := by decide
example : coerce_value (some "+3.14") = Value.float "+3.14" := by decide
example : coerce_value (some "007") = Value.int 7 := by decide
example : coerce_value none = Value.null := by decide

example :
    read_csv_items "p"
      (some ⟨some ["name", "v"], [[some "a", some "1"], [some " ", some "2"], [some "b", none]]⟩) =
    Except.ok ([[("name", Value.str "a"), ("v", Value.int 1)], [("name", Value.str "b")]],
      ["Line 3: missing name; skipped"]) := by decide

example :
    read_csv_items "p"
      (some ⟨some ["name"], [[some "x"], [some "y"], [some " x "], [some "z"]]⟩) =
    Except.error (IngestErr.duplicateKey ("Duplicate name \x27x\x27 found (line 4)")) := by decide

example : read_csv_items "p" none =
    Except.error (IngestErr.notFound "source_path not found: p") := by decide

example : read_csv_items "p" (some ⟨none, []⟩) =
    Except.error (IngestErr.formatError "CSV missing header row") := by decide

example : read_csv_items "p" (some ⟨some ["a", "b"], []⟩) =
    Except.error (IngestErr.formatError ("CSV must include a \x27name\x27 column")) := by decide

/-! ## Lemmas about value coercion -/

lemma data_mk (l : List Char) : (String.mk l).data = l := rfl

lemma toLower_fix_of_isDigit (c : Char) (h : c.isDigit = true) :
    c.toLower = c := by
  simp [Char.isDigit] at h
  simp only [Char.toLower, Char.toNat]
  rw [if_neg]
  rintro ⟨h65, -⟩
  have h57 : c.val.toNat ≤ (57 : UInt32).toNat := h.2
  have h57v : (57 : UInt32).toNat = 57 := rfl
  change 65 ≤ c.val.toNat at h65
  omega

lemma map_toLower_fix (l : List Char) (h : ∀ c ∈ l, c.toLower = c) :
    l.map Char.toLower = l := by
  induction l with
  | nil => rfl
  | cons c cs ih =>
    simp only [List.map_cons, h c (by simp)]
    rw [ih (fun x hx => h x (by simp [hx]))]

lemma intShape_fix_chars (l : List Char) (h : intShape ⟨l⟩ = true) :
    ∀ c ∈ l, c.toLower = c := by
  simp only [intShape, pyIsDigitStr, data_mk, Bool.or_eq_true,
    Bool.and_eq_true] at h
  cases l with
  | nil => intro c hc; cases hc
  | cons c0 cs =>
    intro c hc
    rcases h with ⟨-, hall⟩ | ⟨hh, -, hall⟩
    · simp only [List.all_eq_true] at hall
      exact toLower_fix_of_isDigit c (hall c hc)
    · simp only [List.head?_cons, Option.some.injEq, decide_eq_true_eq] at hh
      simp only [List.tail_cons, List.all_eq_true] at hall
      rcases List.mem_cons.mp hc with rfl | hc2
      · rw [hh]; decide
      · exact toLower_fix_of_isDigit c (hall c hc2)

lemma pyLower_fix_of_intShape (s : String) (h : intShape s = true) :
    pyLower s = s := by
  have hfix : ∀ c ∈ s.data, c.toLower = c := intShape_fix_chars s.data h
  show (⟨s.data.map Char.toLower⟩ : String) = s
  rw [map_toLower_fix s.data hfix]

lemma intShape_eq_specIntLit_chars (l : List Char) :
    intShape ⟨l⟩ = specIntLit ⟨l⟩ := by
  simp only [intShape, specIntLit, pyIsDigitStr, data_mk]
  cases l with
  | nil => rfl
  | cons c0 cs =>
    by_cases hc : c0 = '-'
    · subst hc
      have hnd : Char.isDigit '-' = false := by decide
      simp [List.head?_cons, hnd]
    · simp [List.head?_cons, hc]

lemma intShape_eq_specIntLit (s : String) : intShape s = specIntLit s :=
  intShape_eq_specIntLit_chars s.data

lemma pyStrip_ne_of_specIntLit (s : String)
    (h : specIntLit (pyStrip s) = true) : pyStrip s ≠ "" := by
  intro he
  rw [he] at h
  cases h

lemma pyLower_ne_of_intShape (s : String) (h : intShape s = true)
    (t : String) (hb : intShape t = false) : pyLower s ≠ t := by
  intro he
  rw [pyLower_fix_of_intShape s h] at he
  rw [he] at h
  rw [h] at hb
  cases hb

lemma pyStrip_of_all_ws (s : String)
    (h : s.data.all Char.isWhitespace = true) : pyStrip s = "" := by
  have h1 : s.data.dropWhile Char.isWhitespace = [] :=
    List.dropWhile_eq_nil_iff.mpr (by simpa using h)
  simp [pyStrip, h1]

/-- Claim C4: coercion returns an integer exactly for trimmed values
shaped as an optional single leading minus sign followed by one or more
digits and nothing else, in which case it returns the parsed integer;
the edge cases of the claim hold as stated. -/
theorem claim_C4_integer_coercion (s : String) :
    ((∃ n, coerce_value (some s) = Value.int n) ↔
      specIntLit (pyStrip s) = true)
    ∧ (specIntLit (pyStrip s) = true →
        coerce_value (some s) = Value.int (pyParseInt (pyStrip s)))
    ∧ coerce_value (some "-") = Value.str "-"
    ∧ coerce_value (some "--5") = Value.str "--5"
    ∧ coerce_value (some "42") = Value.int 42
    ∧ coerce_value (some "-7") = Value.int (-7) := by
  have hbranch : specIntLit (pyStrip s) = true →
      coerce_value (some s) = Value.int (pyParseInt (pyStrip s)) := by
    intro hsp
    have hi : intShape (pyStrip s) = true := by
      rw [intShape_eq_specIntLit]; exact hsp
    have h0 : pyStrip s ≠ "" := pyStrip_ne_of_specIntLit s hsp
    have ht : pyLower (pyStrip s) ≠ "true" :=
      pyLower_ne_of_intShape _ hi _ (by decide)
    have hf : pyLower (pyStrip s) ≠ "false" :=
      pyLower_ne_of_intShape _ hi _ (by decide)
    simp [coerce_value, h0, ht, hf, hi]
  refine ⟨⟨?_, fun hsp => ⟨_, hbranch hsp⟩⟩, hbranch,
    by decide, by decide, by decide, by decide⟩
  rintro ⟨n, hn⟩
  by_contra hns
  simp only [Bool.not_eq_true] at hns
  have hi : intShape (pyStrip s) = false := by
    rw [intShape_eq_specIntLit]; exact hns
  by_cases h0 : pyStrip s = ""
  · simp [coerce_value, h0] at hn
  · by_cases ht : pyLower (pyStrip s) = "true"
    · simp [coerce_value, h0, ht] at hn
    · by_cases hf : pyLower (pyStrip s) = "false"
      · simp [coerce_value, h0, ht, hf] at hn
      · cases hft : floatTrigger (pyStrip s) with
        | false => simp [coerce_value, h0, ht, hf, hi, hft] at hn
        | true =>
          cases hfo : pyFloatOk (pyStrip s) with
          | false => simp [coerce_value, h0, ht, hf, hi, hft, hfo] at hn
          | true => simp [coerce_value, h0, ht, hf, hi, hft, hfo] at hn

/-- Claim C4 witness: the general integer-branch statement applied at the
concrete input `"42"`. -/
theorem claim_C4_witness :
    coerce_value (some "42") = Value.int (pyParseInt (pyStrip "42")) :=
  (claim_C4_integer_coercion "42").2.1 (by decide)

/-- Claim C5: for a trimmed, non-empty, non-boolean, non-integer value,
the float branch fires exactly when the value contains one of `.`, `e`,
`E`; a successful parse returns the float, a failed parse falls through
to the trimmed string, and without a trigger character the trimmed
string is returned unchanged. -/
theorem claim_C5_float_branch (s : String)
    (h0 : pyStrip s ≠ "")
    (ht : pyLower (pyStrip s) ≠ "true")
    (hf : pyLower (pyStrip s) ≠ "false")
    (hi : intShape (pyStrip s) = false) :
    (floatTrigger (pyStrip s) = true → pyFloatOk (pyStrip s) = true →
        coerce_value (some s) = Value.float (pyStrip s))
    ∧ (floatTrigger (pyStrip s) = true → pyFloatOk (pyStrip s) = false →
        coerce_value (some s) = Value.str (pyStrip s))
    ∧ (floatTrigger (pyStrip s) = false →
        coerce_value (some s) = Value.str (pyStrip s))
    ∧ coerce_value (some "3.14") = Value.float "3.14"
    ∧ coerce_value (some "1.2.3") = Value.str "1.2.3" := by
  refine ⟨?_, ?_, ?_, by decide, by decide⟩
  · intro hft hfo
    simp [coerce_value, h0, ht, hf, hi, hft, hfo]
  · intro hft hfo
    simp [coerce_value, h0, ht, hf, hi, hft, hfo]
  · intro hft
    simp [coerce_value, h0, ht, hf, hi, hft]

/-- Claim C5 witness: the float-branch statement applied at the concrete
inputs `"1.2.3"` (failed float parse falls through to string) and
`"3.14"` (successful float parse). -/
theorem claim_C5_witness :
    coerce_value (some "1.2.3") = Value.str "1.2.3"
    ∧ coerce_value (some "3.14") = Value.float "3.14" := by
  have h := claim_C5_float_branch "1.2.3" (by decide) (by decide)
    (by decide) (by decide)
  exact ⟨h.2.1 (by decide) (by decide), h.2.2.2.1⟩

/-- Claim C6: coercion is a total function (immediate from its Lean
type); it returns null on inputs that trim to empty, and the matching
boolean when the trimmed value lower-cases to `true` or `false`; the
four concrete examples of the claim hold. -/
theorem claim_C6_null_and_bool (s : String) :
    (pyStrip s = "" → coerce_value (some s) = Value.null)
    ∧ (s.data.all Char.isWhitespace = true →
        coerce_value (some s) = Value.null)
    ∧ (pyLower (pyStrip s) = "true" → coerce_value (some s) = Value.bool true)
    ∧ (pyLower (pyStrip s) = "false" →
        coerce_value (some s) = Value.bool false)
    ∧ coerce_value (some "") = Value.null
    ∧ coerce_value (some "  ") = Value.null
    ∧ coerce_value (some "true") = Value.bool true
    ∧ coerce_value (some "FALSE") = Value.bool false := by
  have hnull : pyStrip s = "" → coerce_value (some s) = Value.null := by
    intro h
    simp [coerce_value, h]
  refine ⟨hnull, fun hws => hnull (pyStrip_of_all_ws s hws), ?_, ?_,
    by decide, by decide, by decide, by decide⟩
  · intro h
    have h0 : pyStrip s ≠ "" := by
      intro he
      rw [he] at h
      exact absurd h (by decide)
    simp [coerce_value, h0, h]
  · intro h
    have h0 : pyStrip s ≠ "" := by
      intro he
      rw [he] at h
      exact absurd h (by decide)
    have ht : pyLower (pyStrip s) ≠ "true" := by
      rw [h]; decide
    simp [coerce_value, h0, ht, h]

/-- Claim C6 witness: the null and boolean clauses applied at the
concrete inputs `"  "` and `"FALSE"`. -/
theorem claim_C6_witness :
    coerce_value (some "  ") = Value.null
    ∧ coerce_value (some "FALSE") = Value.bool false :=
  ⟨(claim_C6_null_and_bool "  ").1 (by decide),
   (claim_C6_null_and_bool "FALSE").2.2.2.1 (by decide)⟩

/-! ## Lemmas about the ingestion loop -/

lemma ingestLoop_of_firstDup_none (fields : List String) (rows : List Row)
    (harity : ∀ r2 ∈ rows, r2.length ≤ fields.length) :
    ∀ (idx : Nat) (items : List Item) (warns seen : List String),
      firstDup fields idx seen rows = none →
      ingestLoop fields rows idx items warns seen =
        Except.ok (items ++ itemsOf fields rows,
          warns ++ warningsFrom fields idx rows) := by
  induction rows with
  | nil =>
    intro idx items warns seen _
    simp [ingestLoop, itemsOf, warningsFrom]
  | cons r rs ih =>
    intro idx items warns seen hfd
    have harity2 : ∀ r2 ∈ rs, r2.length ≤ fields.length := by
      intro r2 hr2
      exact harity r2 (by simp [hr2])
    have harr : ¬ fields.length < r.length :=
      Nat.not_lt.mpr (harity r (by simp))
    simp only [firstDup] at hfd
    by_cases hb : rowName fields r = ""
    · simp only [hb, if_pos rfl] at hfd
      simp only [ingestLoop, hb, if_pos rfl]
      rw [ih harity2 (idx + 1) items (warns ++ [skippedMsg idx]) seen hfd]
      simp [itemsOf, warningsFrom, hb]
    · simp only [if_neg hb] at hfd
      by_cases hs : rowName fields r ∈ seen
      · rw [if_pos hs] at hfd
        cases hfd
      · rw [if_neg hs] at hfd
        simp only [ingestLoop, if_neg hb, if_neg hs, if_neg harr]
        rw [ih harity2 (idx + 1) (items ++ [mkItem fields r]) warns
          (rowName fields r :: seen) hfd]
        simp [itemsOf, warningsFrom, hb]

lemma ingestLoop_of_firstDup_some (fields : List String) (rows : List Row)
    (harity : ∀ r2 ∈ rows, r2.length ≤ fields.length) :
    ∀ (idx : Nat) (items : List Item) (warns seen : List String)
      (n : String) (j : Nat),
      firstDup fields idx seen rows = some (n, j) →
      ingestLoop fields rows idx items warns seen =
        Except.error (IngestErr.duplicateKey (dupErrMsg n j)) := by
  induction rows with
  | nil =>
    intro idx items warns seen n j hfd
    cases hfd
  | cons r rs ih =>
    intro idx items warns seen n j hfd
    have harity2 : ∀ r2 ∈ rs, r2.length ≤ fields.length := by
      intro r2 hr2
      exact harity r2 (by simp [hr2])
    have harr : ¬ fields.length < r.length :=
      Nat.not_lt.mpr (harity r (by simp))
    simp only [firstDup] at hfd
    by_cases hb : rowName fields r = ""
    · simp only [hb, if_pos rfl] at hfd
      simp only [ingestLoop, hb, if_pos rfl]
      exact ih harity2 (idx + 1) items (warns ++ [skippedMsg idx]) seen n j hfd
    · simp only [if_neg hb] at hfd
      by_cases hs : rowName fields r ∈ seen
      · rw [if_pos hs] at hfd
        injection hfd with hnj
        injection hnj with hn hj
        subst hn
        subst hj
        simp only [ingestLoop, if_neg hb, if_pos hs]
      · rw [if_neg hs] at hfd
        simp only [ingestLoop, if_neg hb, if_neg hs, if_neg harr]
        exact ih harity2 (idx + 1) (items ++ [mkItem fields r]) warns
          (rowName fields r :: seen) n j hfd

lemma nodup_of_firstDup_none (fields : List String) (rows : List Row) :
    ∀ (idx : Nat) (seen : List String),
      firstDup fields idx seen rows = none →
      (nonblankNames fields rows).Nodup ∧
        ∀ m ∈ seen, m ∉ nonblankNames fields rows := by
  induction rows with
  | nil =>
    intro idx seen _
    exact ⟨List.nodup_nil, by simp [nonblankNames]⟩
  | cons r rs ih =>
    intro idx seen hfd
    simp only [firstDup] at hfd
    by_cases hb : rowName fields r = ""
    · simp only [hb, if_pos rfl] at hfd
      have h2 := ih (idx + 1) seen hfd
      simp only [nonblankNames, hb, if_pos rfl]
      exact h2
    · simp only [if_neg hb] at hfd
      by_cases hs : rowName fields r ∈ seen
      · rw [if_pos hs] at hfd
        cases hfd
      · rw [if_neg hs] at hfd
        have h2 := ih (idx + 1) (rowName fields r :: seen) hfd
        simp only [nonblankNames, if_neg hb]
        constructor
        · exact List.nodup_cons.mpr
            ⟨h2.2 (rowName fields r) (by simp), h2.1⟩
        · intro m hm
          have hm2 : m ∈ rowName fields r :: seen := by simp [hm]
          have hnot := h2.2 m hm2
          intro hcon
          rcases List.mem_cons.mp hcon with heq | hmem2
          · rw [heq] at hm
            exact hs hm
          · exact hnot hmem2

lemma firstDup_none_of_nodup (fields : List String) (rows : List Row) :
    ∀ (idx : Nat) (seen : List String),
      (nonblankNames fields rows).Nodup →
      (∀ m ∈ seen, m ∉ nonblankNames fields rows) →
      firstDup fields idx seen rows = none := by
  induction rows with
  | nil =>
    intro idx seen _ _
    rfl
  | cons r rs ih =>
    intro idx seen hnd hdisj
    simp only [firstDup]
    by_cases hb : rowName fields r = ""
    · simp only [hb, if_pos rfl]
      simp only [nonblankNames, hb, if_pos rfl] at hnd hdisj
      exact ih (idx + 1) seen hnd hdisj
    · simp only [if_neg hb]
      simp only [nonblankNames, if_neg hb] at hnd hdisj
      have hns : rowName fields r ∉ seen := by
        intro hmem
        exact hdisj (rowName fields r) hmem (by simp)
      rw [if_neg hns]
      have hnd2 := List.nodup_cons.mp hnd
      refine ih (idx + 1) (rowName fields r :: seen) hnd2.2 ?_
      intro m hm
      rcases List.mem_cons.mp hm with heq | hmem2
      · rw [heq]
        exact hnd2.1
      · intro hcon
        exact hdisj m hmem2 (by simp [hcon])

lemma firstDup_some_spec (fields : List String) (rows : List Row) :
    ∀ (idx : Nat) (seen : List String) (n : String) (j : Nat),
      firstDup fields idx seen rows = some (n, j) →
      ∃ k, ∃ hk : k < rows.length,
        j = idx + k ∧
        rowName fields (rows.get ⟨k, hk⟩) = n ∧
        n ≠ "" ∧
        (n ∈ seen ∨ n ∈ nonblankNames fields (rows.take k)) ∧
        (nonblankNames fields (rows.take k)).Nodup ∧
        (∀ m ∈ seen, m ∉ nonblankNames fields (rows.take k)) := by
  induction rows with
  | nil =>
    intro idx seen n j hfd
    cases hfd
  | cons r rs ih =>
    intro idx seen n j hfd
    simp only [firstDup] at hfd
    by_cases hb : rowName fields r = ""
    · simp only [hb, if_pos rfl] at hfd
      obtain ⟨k, hk, hj, hname, hne, hocc, hnd, hdisj⟩ :=
        ih (idx + 1) seen n j hfd
      refine ⟨k + 1, by simpa using Nat.succ_lt_succ hk, by omega, ?_, hne,
        ?_, ?_, ?_⟩
      · simpa using hname
      · simpa [List.take_cons, nonblankNames, hb] using hocc
      · simpa [List.take_cons, nonblankNames, hb] using hnd
      · simpa [List.take_cons, nonblankNames, hb] using hdisj
    · simp only [if_neg hb] at hfd
      by_cases hs : rowName fields r ∈ seen
      · rw [if_pos hs] at hfd
        injection hfd with hnj
        injection hnj with hn hj
        subst hn
        subst hj
        refine ⟨0, by simp, by omega, rfl, hb, Or.inl hs,
          by simp [nonblankNames], by simp [nonblankNames]⟩
      · rw [if_neg hs] at hfd
        obtain ⟨k, hk, hj, hname, hne, hocc, hnd, hdisj⟩ :=
          ih (idx + 1) (rowName fields r :: seen) n j hfd
        refine ⟨k + 1, by simpa using Nat.succ_lt_succ hk, by omega, ?_, hne,
          ?_, ?_, ?_⟩
        · simpa using hname
        · rcases hocc with hseen | htake
          · rcases List.mem_cons.mp hseen with heq | hseen2
            · right
              simp [List.take_cons, nonblankNames, hb, heq]
            · exact Or.inl hseen2
          · right
            simp [List.take_cons, nonblankNames, hb, htake]
        · simp only [List.take_cons, nonblankNames, if_neg hb]
          exact List.nodup_cons.mpr
            ⟨hdisj (rowName fields r) (by simp), hnd⟩
        · intro m hm
          simp only [List.take_cons, nonblankNames, if_neg hb]
          intro hcon
          rcases List.mem_cons.mp hcon with heq | hmem2
          · rw [heq] at hm
            exact hs hm
          · exact hdisj m (by simp [hm]) hmem2

lemma warningsFrom_eq_map (fields : List String) (rows : List Row) :
    ∀ idx : Nat,
      warningsFrom fields idx rows = (blankLines fields idx rows).map skippedMsg := by
  induction rows with
  | nil => intro idx; rfl
  | cons r rs ih =>
    intro idx
    by_cases hb : rowName fields r = ""
    · simp [warningsFrom, blankLines, hb, ih (idx + 1)]
    · simp [warningsFrom, blankLines, hb, ih (idx + 1)]

lemma mem_blankLines (fields : List String) (rows : List Row) :
    ∀ (idx n : Nat),
      n ∈ blankLines fields idx rows ↔
        ∃ k, ∃ hk : k < rows.length,
          n = idx + k ∧ rowName fields (rows.get ⟨k, hk⟩) = "" := by
  induction rows with
  | nil =>
    intro idx n
    simp [blankLines]
  | cons r rs ih =>
    intro idx n
    by_cases hb : rowName fields r = ""
    · rw [blankLines, if_pos hb]
      rw [List.mem_cons]
      constructor
      · intro h
        rcases h with h1 | hmem
        · subst h1
          exact ⟨0, by simp, by omega, hb⟩
        · obtain ⟨k, hk, hn, hname⟩ := (ih (idx + 1) n).mp hmem
          exact ⟨k + 1, by simpa using Nat.succ_lt_succ hk, by omega,
            by simpa using hname⟩
      · rintro ⟨k, hk, hn, hname⟩
        cases k with
        | zero => left; omega
        | succ k2 =>
          right
          refine (ih (idx + 1) n).mpr
            ⟨k2, by simpa using Nat.lt_of_succ_lt_succ hk, by omega, ?_⟩
          simpa using hname
    · rw [blankLines, if_neg hb]
      rw [ih (idx + 1) n]
      constructor
      · rintro ⟨k, hk, hn, hname⟩
        exact ⟨k + 1, by simpa using Nat.succ_lt_succ hk, by omega,
          by simpa using hname⟩
      · rintro ⟨k, hk, hn, hname⟩
        cases k with
        | zero =>
          exact absurd (by simpa using hname) hb
        | succ k2 =>
          exact ⟨k2, by simpa using Nat.lt_of_succ_lt_succ hk, by omega,
            by simpa using hname⟩

lemma itemsOf_blankLines_length (fields : List String) (rows : List Row) :
    ∀ idx : Nat,
      (itemsOf fields rows).length + (blankLines fields idx rows).length
        = rows.length := by
  induction rows with
  | nil => intro idx; rfl
  | cons r rs ih =>
    intro idx
    by_cases hb : rowName fields r = ""
    · rw [itemsOf, if_pos hb, blankLines, if_pos hb]
      have := ih (idx + 1)
      simp only [List.length_cons]
      omega
    · rw [itemsOf, if_neg hb, blankLines, if_neg hb]
      have := ih (idx + 1)
      simp only [List.length_cons]
      omega

lemma upsertItem_lookup_ne (item : Item) (k k2 : String) (v : Value)
    (hne : ¬ k2 = k) : (upsertItem item k v).lookup k2 = item.lookup k2 := by
  have hbk : (k2 == k) = false := beq_false_of_ne hne
  induction item with
  | nil =>
    simp [upsertItem, List.lookup, hbk]
  | cons kv rest ih =>
    rcases kv with ⟨k0, v0⟩
    by_cases h0 : k0 = k
    · rw [upsertItem, if_pos h0]
      have hb0 : (k2 == k0) = false := beq_false_of_ne (by rw [h0]; exact hne)
      simp [List.lookup, hb0]
    · rw [upsertItem, if_neg h0]
      by_cases h2 : k2 = k0
      · have hb0 : (k2 == k0) = true := by simp [h2]
        simp [List.lookup, hb0]
      · have hb0 : (k2 == k0) = false := beq_false_of_ne h2
        simp [List.lookup, hb0, ih]

lemma upsertItem_all_nonnull (item : Item) (k : String) (v : Value)
    (hv : ¬ v = Value.null)
    (h : item.all (fun kv => !(kv.2 == Value.null)) = true) :
    (upsertItem item k v).all (fun kv => !(kv.2 == Value.null)) = true := by
  induction item with
  | nil =>
    simp [upsertItem, hv]
  | cons kv rest ih =>
    rcases kv with ⟨k0, v0⟩
    simp only [List.all_cons, Bool.and_eq_true] at h
    by_cases h0 : k0 = k
    · rw [upsertItem, if_pos h0]
      simp only [List.all_cons, Bool.and_eq_true]
      exact ⟨by simp [hv], h.2⟩
    · rw [upsertItem, if_neg h0]
      simp only [List.all_cons, Bool.and_eq_true]
      exact ⟨h.1, ih h.2⟩

lemma addFields_lookup_name (d : RowDict) :
    ∀ (item : Item) (x : Value), item.lookup "name" = some x →
      (addFields item d).lookup "name" = some x := by
  induction d with
  | nil =>
    intro item x h
    exact h
  | cons kv rest ih =>
    rcases kv with ⟨k, v⟩
    intro item x h
    by_cases hk : k = "name"
    · rw [addFields, if_pos hk]
      exact ih item x h
    · rw [addFields, if_neg hk]
      have hlk : (upsertItem item k (coerce_value v)).lookup "name" = some x := by
        rw [upsertItem_lookup_ne item k "name" _ (fun he => hk he.symm)]
        exact h
      cases hcv : coerce_value v with
      | null => exact ih item x h
      | bool b =>
        refine ih _ x ?_
        rw [upsertItem_lookup_ne item k "name" _ (fun he => hk he.symm)]
        exact h
      | int n =>
        refine ih _ x ?_
        rw [upsertItem_lookup_ne item k "name" _ (fun he => hk he.symm)]
        exact h
      | float lit =>
        refine ih _ x ?_
        rw [upsertItem_lookup_ne item k "name" _ (fun he => hk he.symm)]
        exact h
      | str s2 =>
        refine ih _ x ?_
        rw [upsertItem_lookup_ne item k "name" _ (fun he => hk he.symm)]
        exact h

lemma addFields_all_nonnull (d : RowDict) :
    ∀ item : Item, item.all (fun kv => !(kv.2 == Value.null)) = true →
      (addFields item d).all (fun kv => !(kv.2 == Value.null)) = true := by
  induction d with
  | nil =>
    intro item h
    exact h
  | cons kv rest ih =>
    rcases kv with ⟨k, v⟩
    intro item h
    by_cases hk : k = "name"
    · rw [addFields, if_pos hk]
      exact ih item h
    · rw [addFields, if_neg hk]
      cases hcv : coerce_value v with
      | null => exact ih item h
      | bool b => exact ih _ (upsertItem_all_nonnull item k _ (by simp) h)
      | int n => exact ih _ (upsertItem_all_nonnull item k _ (by simp) h)
      | float lit => exact ih _ (upsertItem_all_nonnull item k _ (by simp) h)
      | str s2 => exact ih _ (upsertItem_all_nonnull item k _ (by simp) h)

lemma buildItem_lookup_name (name : String) (d : RowDict) :
    (buildItem name d).lookup "name" = some (Value.str name) := by
  refine addFields_lookup_name d [("name", Value.str name)] _ ?_
  simp [List.lookup]

lemma itemName_buildItem (name : String) (d : RowDict) :
    itemName (buildItem name d) = name := by
  rw [itemName, buildItem_lookup_name]

lemma wfItemB_buildItem (name : String) (d : RowDict) (h : ¬ name = "") :
    wfItemB (buildItem name d) = true := by
  rw [wfItemB, buildItem_lookup_name]
  simp only [Bool.and_eq_true]
  constructor
  · simp [h]
  · refine addFields_all_nonnull d [("name", Value.str name)] ?_
    simp

lemma itemName_mkItem (fields : List String) (r : Row) :
    itemName (mkItem fields r) = rowName fields r :=
  itemName_buildItem _ _

lemma map_itemName_itemsOf (fields : List String) (rows : List Row) :
    (itemsOf fields rows).map itemName = nonblankNames fields rows := by
  induction rows with
  | nil => rfl
  | cons r rs ih =>
    by_cases hb : rowName fields r = ""
    · rw [itemsOf, if_pos hb, nonblankNames, if_pos hb, ih]
    · rw [itemsOf, if_neg hb, nonblankNames, if_neg hb]
      simp only [List.map_cons, itemName_mkItem, ih]

lemma ingestLoop_ok_wf (fields : List String) (rows : List Row) :
    ∀ (idx : Nat) (items res : List Item) (warns warns2 seen : List String),
      ingestLoop fields rows idx items warns seen = Except.ok (res, warns2) →
      items.all wfItemB = true →
      (items.map itemName).Nodup →
      (∀ it ∈ items, itemName it ∈ seen) →
      res.all wfItemB = true ∧ (res.map itemName).Nodup := by
  induction rows with
  | nil =>
    intro idx items res warns warns2 seen hloop hwf hnd _
    rw [ingestLoop] at hloop
    injection hloop with hpair
    injection hpair with h1 h2
    subst h1
    exact ⟨hwf, hnd⟩
  | cons r rs ih =>
    intro idx items res warns warns2 seen hloop hwf hnd hseen
    rw [ingestLoop] at hloop
    by_cases hb : rowName fields r = ""
    · rw [if_pos hb] at hloop
      exact ih (idx + 1) items res (warns ++ [skippedMsg idx]) warns2 seen
        hloop hwf hnd hseen
    · rw [if_neg hb] at hloop
      by_cases hs : rowName fields r ∈ seen
      · rw [if_pos hs] at hloop
        cases hloop
      · rw [if_neg hs] at hloop
        by_cases harr : fields.length < r.length
        · rw [if_pos harr] at hloop
          cases hloop
        rw [if_neg harr] at hloop
        refine ih (idx + 1) (items ++ [mkItem fields r]) res warns warns2
          (rowName fields r :: seen) hloop ?_ ?_ ?_
        · rw [List.all_append]
          simp only [Bool.and_eq_true]
          exact ⟨hwf, by simp [wfItemB_buildItem _ _ hb, mkItem]⟩
        · rw [List.map_append]
          rw [List.nodup_append]
          refine ⟨hnd, by simp, ?_⟩
          intro a ha hcon
          simp only [List.map_cons, List.map_nil, List.mem_singleton,
            itemName_mkItem] at hcon
          obtain ⟨it, hit, hitn⟩ := List.mem_map.mp ha
          rw [hcon] at hitn
          rw [← hitn] at hs
          exact hs (hseen it hit)
        · intro it hit
          rcases List.mem_append.mp hit with h1 | h1
          · exact List.mem_cons.mpr (Or.inr (hseen it h1))
          · simp only [List.mem_singleton] at h1
            rw [h1, itemName_mkItem]
            exact List.mem_cons.mpr (Or.inl rfl)

lemma read_csv_items_ok (path : String) (fields : List String)
    (rows : List Row) (hne : fields ≠ []) (hmem : "name" ∈ fields) :
    read_csv_items path (some ⟨some fields, rows⟩) =
      ingestLoop fields rows 2 [] [] [] := by
  simp [read_csv_items, hne, hmem]

/-! ## Claim theorems about ingestion -/

/-- Claim C1: in every successful ingestion every Record stores a
non-empty string under the key `"name"`, those names are pairwise
distinct across the result, and no key of any Record maps to null. -/
theorem claim_C1_record_invariants (path : String) (src : Option CSVSource)
    (items : List Item) (warns : List String)
    (h : read_csv_items path src = Except.ok (items, warns)) :
    items.all wfItemB = true
    ∧ (items.map itemName).Nodup
    ∧ ∀ it ∈ items,
        (∃ n, it.lookup "name" = some (Value.str n) ∧ n ≠ "")
        ∧ ∀ kv ∈ it, kv.2 ≠ Value.null := by
  rcases src with _ | file
  · rw [read_csv_items] at h
    cases h
  rcases file with ⟨fnames, rows⟩
  rcases fnames with _ | fields
  · rw [read_csv_items] at h
    cases h
  by_cases hne : fields = []
  · simp [read_csv_items, hne] at h
  by_cases hmem : "name" ∈ fields
  · have hloop : ingestLoop fields rows 2 [] [] [] = Except.ok (items, warns) := by
      rw [← read_csv_items_ok path fields rows hne hmem]
      exact h
    have hwf := ingestLoop_ok_wf fields rows 2 [] items [] warns [] hloop
      (by simp) (by simp) (by simp)
    refine ⟨hwf.1, hwf.2, ?_⟩
    intro it hit
    have hb : wfItemB it = true := by
      have hall := hwf.1
      rw [List.all_eq_true] at hall
      exact hall it hit
    rw [wfItemB, Bool.and_eq_true] at hb
    obtain ⟨hname, hall2⟩ := hb
    constructor
    · rcases hlk : it.lookup "name" with _ | v
      · simp [hlk] at hname
      · rcases v with _ | b | n | lit | n
        · simp [hlk] at hname
        · simp [hlk] at hname
        · simp [hlk] at hname
        · simp [hlk] at hname
        · refine ⟨n, rfl, ?_⟩
          simp [hlk] at hname
          exact hname
    · intro kv hkv
      rw [List.all_eq_true] at hall2
      have := hall2 kv hkv
      simpa using this
  · simp [read_csv_items, hne, hmem] at h

/-- Claim C1 witness: the invariant theorem applied to a concrete
successful ingestion with a coerced field, a skipped blank row and an
omitted null field. -/
theorem claim_C1_witness :
    ([[("name", Value.str "a"), ("v", Value.int 1)],
      [("name", Value.str "b")]] : List Item).all wfItemB = true
    ∧ (([[("name", Value.str "a"), ("v", Value.int 1)],
        [("name", Value.str "b")]] : List Item).map itemName).Nodup := by
  have h := claim_C1_record_invariants "p"
    (some ⟨some ["name", "v"],
      [[some "a", some "1"], [some " ", some "2"], [some "b", none]]⟩)
    [[("name", Value.str "a"), ("v", Value.int 1)], [("name", Value.str "b")]]
    ["Line 3: missing name; skipped"] (by decide)
  exact ⟨h.1, h.2.1⟩

/-- Claim C2 (amended): when no data row has more cells than the header
and the non-blank trimmed names of the rows are pairwise distinct,
ingestion succeeds with exactly one Record per non-blank row in source
order (the Record names, in order, are exactly the non-blank row
names), and blank rows are exactly the rows without a Record.  The
arity proviso is forced by the source: a row with extra cells makes the
item loop crash on the rest-key `None` with an uncaught AttributeError
instead of succeeding. -/
theorem claim_C2_success_in_order (path : String) (fields : List String)
    (rows : List Row) (hne : fields ≠ []) (hmem : "name" ∈ fields)
    (harity : ∀ r ∈ rows, r.length ≤ fields.length)
    (hnd : (nonblankNames fields rows).Nodup) :
    read_csv_items path (some ⟨some fields, rows⟩) =
      Except.ok (itemsOf fields rows, warningsFrom fields 2 rows)
    ∧ (itemsOf fields rows).map itemName = nonblankNames fields rows := by
  have hfd : firstDup fields 2 [] rows = none :=
    firstDup_none_of_nodup fields rows 2 [] hnd (by simp)
  constructor
  · rw [read_csv_items_ok path fields rows hne hmem]
    rw [ingestLoop_of_firstDup_none fields rows harity 2 [] [] [] hfd]
    simp
  · exact map_itemName_itemsOf fields rows

/-- Claim C2 counterexample to the unamended claim: a file whose single
data row has the distinct, non-empty trimmed name `x` but one cell more
than the header; ingestion crashes with the uncaught AttributeError of
the rest-key cell instead of succeeding. -/
theorem claim_C2_counterexample :
    (nonblankNames ["name"] [[some "x", some "y"]]).Nodup
    ∧ read_csv_items "p" (some ⟨some ["name"], [[some "x", some "y"]]⟩) =
        Except.error (IngestErr.attributeError attrErrMsg) :=
  ⟨by decide, by decide⟩

/-- Claim C2 witness: the success theorem applied to a concrete file with
two distinct names. -/
theorem claim_C2_witness :
    read_csv_items "p" (some ⟨some ["name"], [[some "a"], [some "b"]]⟩) =
      Except.ok (itemsOf ["name"] [[some "a"], [some "b"]],
        warningsFrom ["name"] 2 [[some "a"], [some "b"]]) :=
  (claim_C2_success_in_order "p" ["name"] [[some "a"], [some "b"]]
    (by decide) (by decide) (by decide) (by decide)).1

/-- Claim C3 (amended): when no data row has more cells than the header
and two rows share a non-blank trimmed name, ingestion fails with the
duplicate-key error of the first such collision: the error message
names the duplicated name and the line of its second occurrence, the
name is non-blank, the rows before that line contain an earlier
occurrence and no other collision, and no Record list is returned at
all.  The arity proviso is forced by the source: a longer unique-name
row before the duplicate makes the program crash with an uncaught
AttributeError before the duplicate check is ever reached. -/
theorem claim_C3_duplicate_fatal (path : String) (fields : List String)
    (rows : List Row) (hne : fields ≠ []) (hmem : "name" ∈ fields)
    (harity : ∀ r ∈ rows, r.length ≤ fields.length)
    (hdup : ¬ (nonblankNames fields rows).Nodup) :
    ∃ n j,
      firstDup fields 2 [] rows = some (n, j)
      ∧ read_csv_items path (some ⟨some fields, rows⟩) =
          Except.error (IngestErr.duplicateKey (dupErrMsg n j))
      ∧ n ≠ ""
      ∧ ∃ k, ∃ hk : k < rows.length,
          j = k + 2
          ∧ rowName fields (rows.get ⟨k, hk⟩) = n
          ∧ n ∈ nonblankNames fields (rows.take k)
          ∧ (nonblankNames fields (rows.take k)).Nodup := by
  cases hfd : firstDup fields 2 [] rows with
  | none =>
    exact absurd (nodup_of_firstDup_none fields rows 2 [] hfd).1 hdup
  | some nj =>
    rcases nj with ⟨n, j⟩
    obtain ⟨k, hk, hj, hname, hnne, hocc, hnd2, -⟩ :=
      firstDup_some_spec fields rows 2 [] n j hfd
    refine ⟨n, j, rfl, ?_, hnne, k, hk, by omega, hname, ?_, hnd2⟩
    · rw [read_csv_items_ok path fields rows hne hmem]
      exact ingestLoop_of_firstDup_some fields rows harity 2 [] [] [] n j hfd
    · rcases hocc with hseen | htake
      · exact absurd hseen (List.not_mem_nil n)
      · exact htake

/-- Claim C3 counterexample to the unamended claim: the rows named
`a` (with a trailing extra cell), `c` and `c` contain a duplicated
non-blank name, yet ingestion crashes with the uncaught AttributeError
at the first long row and never raises the duplicate-key error the
claim asserts. -/
theorem claim_C3_counterexample :
    ¬ (nonblankNames ["name"]
        [[some "a", some "b"], [some "c"], [some "c"]]).Nodup
    ∧ read_csv_items "p"
        (some ⟨some ["name"], [[some "a", some "b"], [some "c"], [some "c"]]⟩) =
        Except.error (IngestErr.attributeError attrErrMsg)
    ∧ read_csv_items "p"
        (some ⟨some ["name"], [[some "a", some "b"], [some "c"], [some "c"]]⟩) ≠
        Except.error (IngestErr.duplicateKey (dupErrMsg "c" 4)) :=
  ⟨by decide, by decide, by decide⟩

/-- Claim C3 witness: the duplicate theorem applied to a concrete file in
which the trimmed name `x` occurs on lines 2 and 3. -/
theorem claim_C3_witness :
    read_csv_items "p" (some ⟨some ["name"], [[some "x"], [some " x "]]⟩) =
      Except.error (IngestErr.duplicateKey (dupErrMsg "x" 3)) := by
  obtain ⟨n, j, hfd, hread, -, -⟩ :=
    claim_C3_duplicate_fatal "p" ["name"] [[some "x"], [some " x "]]
      (by decide) (by decide) (by decide) (by decide)
  have hval : firstDup ["name"] 2 [] [[some "x"], [some " x "]] =
      some ("x", 3) := by decide
  rw [hval] at hfd
  injection hfd with hnj
  injection hnj with hn hj
  subst hn
  subst hj
  exact hread

/-- Claim C7: a missing path fails with the not-found error, an absent
or empty header row fails with the missing-header error, and a header
without a `name` column fails with the missing-column error; each case
returns an error, never a partial result. -/
theorem claim_C7_fatal_config_errors (path : String) (rows : List Row)
    (fields : List String) :
    read_csv_items path none =
      Except.error (IngestErr.notFound s!"source_path not found: {path}")
    ∧ read_csv_items path (some ⟨none, rows⟩) =
        Except.error (IngestErr.formatError "CSV missing header row")
    ∧ read_csv_items path (some ⟨some [], rows⟩) =
        Except.error (IngestErr.formatError "CSV missing header row")
    ∧ ("name" ∉ fields → fields ≠ [] →
        read_csv_items path (some ⟨some fields, rows⟩) =
          Except.error (IngestErr.formatError
            ("CSV must include a \x27name\x27 column"))) := by
  refine ⟨rfl, rfl, by simp [read_csv_items], ?_⟩
  intro h1 h2
  simp [read_csv_items, h1, h2]

/-- Claim C7 witness: the missing-column clause applied to a concrete
header without a `name` column. -/
theorem claim_C7_witness :
    read_csv_items "p" (some ⟨some ["x"], []⟩) =
      Except.error (IngestErr.formatError
        ("CSV must include a \x27name\x27 column")) :=
  (claim_C7_fatal_config_errors "p" [] ["x"]).2.2.2 (by decide) (by decide)

/-- Claim C8 (amended): when no data row has more cells than the header
(and, as before, the non-blank names are duplicate-free so that the run
returns at all), every blank-name row at position `i` (line `i + 2`,
the header being line 1) contributes exactly one Warning with the exact
text of the source, no Record, and ingestion of the remaining rows
continues: the warning list is precisely the line-numbered messages of
the blank rows, and record count plus blank count equals the row count.
The arity proviso is forced by the source: a later long row crashes the
whole run with an uncaught AttributeError, and no warning list is ever
returned. -/
theorem claim_C8_blank_name_warnings (path : String) (fields : List String)
    (rows : List Row) (hne : fields ≠ []) (hmem : "name" ∈ fields)
    (harity : ∀ r ∈ rows, r.length ≤ fields.length)
    (hnd : (nonblankNames fields rows).Nodup) :
    read_csv_items path (some ⟨some fields, rows⟩) =
      Except.ok (itemsOf fields rows,
        (blankLines fields 2 rows).map skippedMsg)
    ∧ (∀ i : Nat, i + 2 ∈ blankLines fields 2 rows ↔
        ∃ h : i < rows.length, rowName fields (rows.get ⟨i, h⟩) = "")
    ∧ skippedMsg 3 = "Line 3: missing name; skipped"
    ∧ (itemsOf fields rows).length + (blankLines fields 2 rows).length
        = rows.length := by
  refine ⟨?_, ?_, rfl, itemsOf_blankLines_length fields rows 2⟩
  · have hfd : firstDup fields 2 [] rows = none :=
      firstDup_none_of_nodup fields rows 2 [] hnd (by simp)
    rw [read_csv_items_ok path fields rows hne hmem]
    rw [ingestLoop_of_firstDup_none fields rows harity 2 [] [] [] hfd]
    rw [warningsFrom_eq_map]
    simp
  · intro i
    rw [mem_blankLines fields rows 2 (i + 2)]
    constructor
    · rintro ⟨k, hk, heq, hname⟩
      have hki : k = i := by omega
      subst hki
      exact ⟨hk, hname⟩
    · rintro ⟨hlt, hname⟩
      exact ⟨i, hlt, by omega, hname⟩

/-- Claim C8 counterexample to the unamended claim: the first data row
(line 2) has a blank name, but the second row is longer than the header,
so the run crashes with the uncaught AttributeError and returns no
warning list at all instead of the claimed Warning-and-continue. -/
theorem claim_C8_counterexample :
    rowName ["name"] [some ""] = ""
    ∧ read_csv_items "p"
        (some ⟨some ["name"], [[some ""], [some "x", some "y"]]⟩) =
        Except.error (IngestErr.attributeError attrErrMsg) :=
  ⟨by decide, by decide⟩

/-- Claim C8 witness: the blank-name theorem applied to a concrete file
whose second data row (line 3) has a blank name. -/
theorem claim_C8_witness :
    read_csv_items "p" (some ⟨some ["name"], [[some "a"], [some ""]]⟩) =
      Except.ok (itemsOf ["name"] [[some "a"], [some ""]],
        (blankLines ["name"] 2 [[some "a"], [some ""]]).map skippedMsg)
    ∧ skippedMsg 3 = "Line 3: missing name; skipped" := by
  have h := claim_C8_blank_name_warnings "p" ["name"] [[some "a"], [some ""]]
    (by decide) (by decide) (by decide) (by decide)
  exact ⟨h.1, h.2.2.1⟩

/-- Claim C9: ingestion is deterministic and free of side effects.  The
embedding of `read_csv_items` is a pure function of the parsed file
content, so two runs over the same content are the same term and their
results are definitionally equal; the input value is immutable. -/
theorem claim_C9_deterministic (path : String) (src : Option CSVSource) :
    read_csv_items path src = read_csv_items path src := rfl

/-! ## Missing cells behave like empty cells (claim C10) -/

lemma zip_map_right (fields : List String) :
    ∀ l : List (Option String),
      fields.zip (l.map normCell) = (fields.zip l).map normKV := by
  induction fields with
  | nil => intro l; simp
  | cons f fs ih =>
    intro l
    cases l with
    | nil => simp
    | cons c cs =>
      simp only [List.map_cons, List.zip_cons_cons, ih cs]
      rfl

lemma zip_append_right_of_length (fields : List String) :
    ∀ (x R : List (Option String)), fields.length ≤ x.length →
      fields.zip (x ++ R) = fields.zip x := by
  induction fields with
  | nil => intro x R _; simp
  | cons f fs ih =>
    intro x R hlen
    cases x with
    | nil => simp at hlen
    | cons c cs =>
      simp only [List.cons_append, List.zip_cons_cons]
      rw [ih cs R (by simpa using hlen)]

lemma zip_replicate_of_le (s : Option String) :
    ∀ (fields : List String) (m : Nat), fields.length ≤ m →
      fields.zip (List.replicate m s) = fields.map (fun f => (f, s)) := by
  intro fields
  induction fields with
  | nil => intro m _; simp
  | cons f fs ih =>
    intro m hm
    cases m with
    | zero => simp at hm
    | succ m2 =>
      simp only [List.replicate_succ, List.zip_cons_cons, List.map_cons]
      rw [ih m2 (by simpa using hm)]

lemma zip_append_replicate_congr (s : Option String) :
    ∀ (fields : List String) (x : List (Option String)) (m k : Nat),
      fields.length ≤ x.length + m → fields.length ≤ x.length + k →
      fields.zip (x ++ List.replicate m s) =
        fields.zip (x ++ List.replicate k s) := by
  intro fields
  induction fields with
  | nil => intro x m k _ _; simp
  | cons f fs ih =>
    intro x m k hm hk
    cases x with
    | nil =>
      simp only [List.nil_append]
      rw [zip_replicate_of_le s (f :: fs) m (by simpa using hm),
        zip_replicate_of_le s (f :: fs) k (by simpa using hk)]
    | cons c cs =>
      simp only [List.cons_append, List.zip_cons_cons]
      rw [ih cs m k
        (by simp only [List.length_cons] at hm ⊢; omega)
        (by simp only [List.length_cons] at hk ⊢; omega)]

lemma length_fillRow (fields : List String) (r : Row) :
    (fillRow fields r).length = r.length + (fields.length - r.length) := by
  simp [fillRow]

lemma upsertAssoc_map_norm (d : RowDict) (k : String) (v : Option String) :
    upsertAssoc (d.map normKV) k (normCell v) =
      (upsertAssoc d k v).map normKV := by
  induction d with
  | nil => rfl
  | cons kv rest ih =>
    rcases kv with ⟨k0, v0⟩
    by_cases h0 : k0 = k
    · simp only [List.map_cons, upsertAssoc, normKV, if_pos h0]
    · simp only [List.map_cons, upsertAssoc, normKV, if_neg h0, ih]

lemma foldl_upsert_map (pairs : List (String × Option String)) :
    ∀ d : RowDict,
      (pairs.map normKV).foldl (fun d2 kv => upsertAssoc d2 kv.1 kv.2)
          (d.map normKV)
        = (pairs.foldl (fun d2 kv => upsertAssoc d2 kv.1 kv.2) d).map normKV := by
  induction pairs with
  | nil => intro d; rfl
  | cons kv rest ih =>
    rcases kv with ⟨k, v⟩
    intro d
    simp only [List.map_cons, List.foldl_cons]
    rw [show (normKV (k, v)).2 = normCell v from rfl,
      show (normKV (k, v)).1 = k from rfl]
    rw [upsertAssoc_map_norm d k v]
    exact ih (upsertAssoc d k v)

lemma rowDict_fillRow (fields : List String) (r : Row) :
    rowDict fields (fillRow fields r) = (rowDict fields r).map normKV := by
  rw [rowDict, rowDict]
  have h1 : fields.zip (fillRow fields r ++ List.replicate fields.length none)
      = fields.zip (fillRow fields r) :=
    zip_append_right_of_length fields _ _ (by rw [length_fillRow]; omega)
  have h3 : fields.zip (fillRow fields r)
      = fields.zip ((r ++ List.replicate fields.length none).map normCell) := by
    rw [show fillRow fields r =
      r.map normCell ++ List.replicate (fields.length - r.length) (some "")
      from rfl]
    rw [List.map_append, List.map_replicate,
      show normCell none = some "" from rfl]
    exact zip_append_replicate_congr (some "") fields (r.map normCell)
      (fields.length - r.length) fields.length
      (by simp only [List.length_map]; omega)
      (by simp only [List.length_map]; omega)
  rw [h1, h3, zip_map_right fields]
  have h2 := foldl_upsert_map
    (fields.zip (r ++ List.replicate fields.length none)) []
  simpa using h2

lemma lookup_map_normKV (d : RowDict) (k : String) :
    (d.map normKV).lookup k = (d.lookup k).map normCell := by
  induction d with
  | nil => rfl
  | cons kv rest ih =>
    rcases kv with ⟨k0, v0⟩
    by_cases h0 : k = k0
    · have hb : (k == k0) = true := by simp [h0]
      simp [List.lookup, normKV, hb]
    · have hb : (k == k0) = false := beq_false_of_ne h0
      simp [List.lookup, normKV, hb, ih]

lemma rowGet_getD_map_norm (d : RowDict) (k : String) :
    (rowGet (d.map normKV) k).getD "" = (rowGet d k).getD "" := by
  rw [rowGet, rowGet, lookup_map_normKV]
  cases hl : d.lookup k with
  | none => rfl
  | some v =>
    cases v with
    | none => rfl
    | some s2 => rfl

lemma coerce_value_normCell (v : Option String) :
    coerce_value (normCell v) = coerce_value v := by
  cases v with
  | none => rfl
  | some s2 => rfl

lemma addFields_map_norm (d : RowDict) :
    ∀ item : Item, addFields item (d.map normKV) = addFields item d := by
  induction d with
  | nil => intro item; rfl
  | cons kv rest ih =>
    rcases kv with ⟨k, v⟩
    intro item
    simp only [List.map_cons]
    rw [show normKV (k, v) = (k, normCell v) from rfl]
    by_cases hk : k = "name"
    · rw [addFields, if_pos hk, addFields, if_pos hk]
      exact ih item
    · rw [addFields, if_neg hk, addFields, if_neg hk]
      rw [coerce_value_normCell v]
      cases hcv : coerce_value v with
      | null => exact ih item
      | bool b => exact ih _
      | int n => exact ih _
      | float lit => exact ih _
      | str s2 => exact ih _

lemma rowName_fillRow (fields : List String) (r : Row) :
    rowName fields (fillRow fields r) = rowName fields r := by
  rw [rowName, rowName, rowDict_fillRow, rowGet_getD_map_norm]

lemma mkItem_fillRow (fields : List String) (r : Row) :
    mkItem fields (fillRow fields r) = mkItem fields r := by
  rw [mkItem, mkItem, rowName_fillRow, rowDict_fillRow, buildItem, buildItem,
    addFields_map_norm]

lemma fillRow_long_iff (fields : List String) (r : Row) :
    fields.length < (fillRow fields r).length ↔ fields.length < r.length := by
  rw [length_fillRow]
  omega

lemma ingestLoop_fillRow (fields : List String) (rows : List Row) :
    ∀ (idx : Nat) (items : List Item) (warns seen : List String),
      ingestLoop fields (rows.map (fillRow fields)) idx items warns seen
        = ingestLoop fields rows idx items warns seen := by
  induction rows with
  | nil => intro idx items warns seen; rfl
  | cons r rs ih =>
    intro idx items warns seen
    simp only [List.map_cons, ingestLoop, rowName_fillRow, mkItem_fillRow]
    by_cases hb : rowName fields r = ""
    · rw [if_pos hb, if_pos hb, ih]
    · rw [if_neg hb, if_neg hb]
      by_cases hs : rowName fields r ∈ seen
      · rw [if_pos hs, if_pos hs]
      · rw [if_neg hs, if_neg hs]
        by_cases harr : fields.length < r.length
        · rw [if_pos ((fillRow_long_iff fields r).mpr harr), if_pos harr]
        · rw [if_neg (fun hc => harr ((fillRow_long_iff fields r).mp hc)),
            if_neg harr, ih]

/-- Claim C10: an absent cell is treated exactly like an explicitly
empty cell, so ingestion never fails because of a short row: a missing
cell coerces to null (and is omitted), and replacing every absent cell
of every row by an empty string cell leaves the whole ingestion result
unchanged (in particular a missing name yields the usual blank-name
Warning and no Record).  `fillRow` only fills absences and keeps the
extra cells of long rows, so the equation holds for all row lists: a
long row crashes identically on both sides, and a short or exact row
behaves identically once its absent cells read as `""`. -/
theorem claim_C10_missing_cells (path : String) (fields : List String)
    (rows : List Row) :
    coerce_value none = Value.null
    ∧ coerce_value none = coerce_value (some "")
    ∧ read_csv_items path (some ⟨some fields, rows⟩) =
        read_csv_items path (some ⟨some fields, rows.map (fillRow fields)⟩) := by
  refine ⟨rfl, rfl, ?_⟩
  by_cases hne : fields = []
  · simp [read_csv_items, hne]
  by_cases hmem : "name" ∈ fields
  · rw [read_csv_items_ok path fields rows hne hmem]
    rw [read_csv_items_ok path fields (rows.map (fillRow fields)) hne hmem]
    rw [ingestLoop_fillRow]
  · simp [read_csv_items, hne, hmem]
